import Mathlib

/-!
Verification of `invenio_records_rest/facets.py`: a shallow embedding of the
facet/filter factories and the facet-query orchestration, together with
theorems checking the natural-language specification against the code.

Python strings are embedded as Lean `String` (a list of characters in this
toolchain); Python dicts keyed by strings as insertion-ordered association
lists with unique keys; werkzeug `MultiDict`s as flat ordered lists of
(key, value) pairs observed through `getAll` (werkzeug's `getlist`); a raised
`RESTValidationError(errors=[FieldError(field, message)])` as an
`Except`/`Option FieldError` outcome.  Because the Python orchestration
mutates its `urlkwargs` `MultiDict` in place and rebinds `search` locally,
the orchestration is embedded as a function returning the error signal (if
any) together with the search and urlkwargs state at the moment the error
propagates.
-/

set_option maxHeartbeats 1000000

namespace InvenioFacets

/-- `FieldError(field, message)` from `invenio_rest.errors`, the payload of the
`RESTValidationError` raised by `range_filter`. -/
structure FieldError where
  field : String
  message : String
deriving DecidableEq

/-- Python `str.count("--")` on the character list: the number of
non-overlapping occurrences of the two-character separator `--`, scanning
left to right. -/
def countDD : List Char → Nat
  | '-' :: '-' :: rest => countDD rest + 1
  | _ :: rest => countDD rest
  | [] => 0

/-- Python `str.split("--")` on the character list: split on non-overlapping
occurrences of `--`, scanning left to right; splitting the empty string gives
one empty part. -/
def splitDD : List Char → List (List Char)
  | '-' :: '-' :: rest => [] :: splitDD rest
  | c :: rest =>
    match splitDD rest with
    | [] => [[c]]
    | h :: t => (c :: h) :: t
  | [] => [[]]

/-- `v.count("--")` for a Python string `v`. -/
def pyCountDD (s : String) : Nat := countDD s.data

/-- `v.split("--")` for a Python string `v`. -/
def pySplitDD (s : String) : List String := (splitDD s.data).map String.mk

/-- Python `dict` assignment `d[k] = v` on a string-keyed insertion-ordered
association list: replace the value in place when the key is present,
otherwise append the new binding. -/
def setKey {β : Type} (d : List (String × β)) (k : String) (v : β) :
    List (String × β) :=
  if d.any (fun q => q.1 == k) then
    d.map (fun q => if q.1 == k then (k, v) else q)
  else d ++ [(k, v)]

/-- A Python string-to-string `dict` (insertion-ordered association list). -/
abbrev Dict := List (String × String)

/-- Python `d.get(k)` / `d[k]` as a partial lookup (first binding wins; dicts
built by the code have unique keys). -/
def Dict.get? (d : Dict) (k : String) : Option String :=
  (d.find? (fun q => q.1 == k)).map Prod.snd

/-- Python `d.update(other)`: fold `d[k] = v` over `other`'s bindings. -/
def Dict.update (d other : Dict) : Dict :=
  other.foldl (fun acc q => setKey acc q.1 q.2) d

/-- The `dsl.query.Range(**{field: args})` value built by `range_filter`. -/
structure RangeQuery where
  field : String
  args : Dict
deriving DecidableEq

/-- One iteration of `range_filter`'s
`for (range_end, strict, opers, date_math) in zip(...)` loop body: skip the
empty token, otherwise pick the strict key and strip the marker when the
first character is the marker, append the date-math suffix when configured,
and assign into the accumulated `range_args` dict. -/
def rangeSide (acc : Dict) (rangeEnd : String) (strict : Char)
    (strictKey nonstrictKey : String) (dateMath : Option String) : Dict :=
  match rangeEnd.data with
  | [] => acc
  | c :: rest =>
    let p := if c = strict then (strictKey, String.mk rest)
             else (nonstrictKey, rangeEnd)
    let v := match dateMath with
      | some dm => p.2 ++ "||" ++ dm
      | none => p.2
    setKey acc p.1 v

/-- `range_filter(field, start_date_math, end_date_math, **kwargs)`'s `inner`
closure applied to `values`: validate (exactly one value, exactly one `--`,
not the bare separator), split into the two ends, build `range_args` by the
zipped loop, and return `Range(**{field: kwargs | range_args})`; a validation
failure raises `RESTValidationError([FieldError(field, "Invalid range
format.")])`. -/
def range_filter (field : String) (start_date_math end_date_math : Option String)
    (kwargs : Dict) (values : List String) : Except FieldError RangeQuery :=
  if values.length ≠ 1 ∨ pyCountDD (values.headD "") ≠ 1 ∨ values.headD "" = "--" then
    .error ⟨field, "Invalid range format."⟩
  else
    let range_ends := pySplitDD (values.headD "")
    let sides := range_ends.zip
      [('>', "gt", "gte", start_date_math), ('<', "lt", "lte", end_date_math)]
    let range_args := sides.foldl
      (fun acc s => rangeSide acc s.1 s.2.1 s.2.2.1 s.2.2.2.1 s.2.2.2.2) []
    .ok ⟨field, Dict.update kwargs range_args⟩

/-- The `dsl.Q("terms", **{field: values})` value built by `terms_filter`. -/
structure TermsQuery where
  field : String
  values : List String
deriving DecidableEq

/-- `terms_filter(field)`'s `inner` closure: `values ↦ Q("terms", field=values)`. -/
def terms_filter (field : String) : List String → TermsQuery :=
  fun values => ⟨field, values⟩

/-- Search-engine semantics of a `terms` query: it matches a document exactly
when the document's value at the query's field is one of the query's values. -/
def TermsQuery.matchesDoc (q : TermsQuery) (doc : String → String) : Prop :=
  doc q.field ∈ q.values

instance (q : TermsQuery) (doc : String → String) :
    Decidable (q.matchesDoc doc) := by
  unfold TermsQuery.matchesDoc; infer_instance

/-- A werkzeug `MultiDict` (request values / the canonical `urlkwargs` echo):
a flat insertion-ordered list of (key, value) pairs. -/
abbrev Multi := List (String × String)

/-- werkzeug `m.getlist(name)`: all values stored under `name`, in order. -/
def Multi.getAll (m : Multi) (name : String) : List String :=
  (m.filter fun q => q.1 == name).map Prod.snd

/-- werkzeug `m.add(name, v)`: append one (name, value) entry. -/
def Multi.add (m : Multi) (name v : String) : Multi := m ++ [(name, v)]

/-- A filter factory as configured under `filters` / `post_filters`: from the
ordered list of request values to a filter expression, or a raised validation
error. -/
abbrev FilterFactory (α : Type) := List String → Except FieldError α

/-- An aggregation definition as configured under `aggs`: either a concrete
aggregation body or a callable producing one (`callable(agg)` in
`_aggregations`). -/
inductive AggDef (β : Type) where
  | value (v : β)
  | lazy (f : Unit → β)

/-- `agg if not callable(agg) else agg()`. -/
def resolveAgg {β : Type} : AggDef β → β
  | .value v => v
  | .lazy f => f ()

/-- The search object: an `invenio_search` DSL query observed through the
three operations the code uses — `search.filter`, `search.post_filter` and
`search.aggs[name] = ...` — with `α` the type of filter expressions and `β`
the type of aggregation bodies. -/
structure Search (α β : Type) where
  filters : List α
  postFilters : List α
  aggs : List (String × β)
deriving DecidableEq

/-- `search.filter(expr)`: narrow the result set (and aggregation counts). -/
def Search.filter {α β : Type} (s : Search α β) (e : α) : Search α β :=
  { s with filters := s.filters ++ [e] }

/-- `search.post_filter(expr)`: narrow only the returned result set. -/
def Search.post_filter {α β : Type} (s : Search α β) (e : α) : Search α β :=
  { s with postFilters := s.postFilters ++ [e] }

/-- The per-index facet configuration record: the `aggs`, `filters` and
`post_filters` mappings (each defaulting to empty via `facets.get(_, {})`). -/
structure FacetConfig (α β : Type) where
  aggs : List (String × AggDef β)
  filters : List (String × FilterFactory α)
  post_filters : List (String × FilterFactory α)

/-- The loop of `_create_filter_dsl`, with the accumulated `filters` list and
the mutated `urlkwargs` made explicit.  For each `(name, filter_factory)` in
order: read `request.values.getlist(name)`; skip when empty; otherwise invoke
the factory — a raised error stops the loop and propagates together with the
state accumulated so far — and on success append the expression and echo every
value under `name` into `urlkwargs`. -/
def createFilterDslAux {α : Type} (req : Multi) :
    List (String × FilterFactory α) → List α → Multi →
      Option FieldError × List α × Multi
  | [], filters, urlkwargs => (none, filters, urlkwargs)
  | (name, ff) :: rest, filters, urlkwargs =>
    let values := Multi.getAll req name
    if values.isEmpty then createFilterDslAux req rest filters urlkwargs
    else
      match ff values with
      | .error e => (some e, filters, urlkwargs)
      | .ok f =>
        createFilterDslAux req rest (filters ++ [f])
          (values.foldl (fun uk v => Multi.add uk name v) urlkwargs)

/-- `_create_filter_dsl(urlkwargs, definitions)` reading `request.values`:
returns `(filters, urlkwargs)` on success, or the raised error with the
`urlkwargs` state at the moment of propagation. -/
def _create_filter_dsl {α : Type} (req : Multi) (urlkwargs : Multi)
    (definitions : List (String × FilterFactory α)) :
    Option FieldError × List α × Multi :=
  createFilterDslAux req definitions [] urlkwargs

/-- `_query_filter(search, urlkwargs, definitions)`: collect the group's
filters, then apply each via `search.filter`; when collection raises, the
apply loop is never reached and `search` is unchanged. -/
def _query_filter {α β : Type} (req : Multi) (search : Search α β)
    (urlkwargs : Multi) (definitions : List (String × FilterFactory α)) :
    Option FieldError × Search α β × Multi :=
  match _create_filter_dsl req urlkwargs definitions with
  | (some e, _, uk) => (some e, search, uk)
  | (none, filters, uk) => (none, filters.foldl Search.filter search, uk)

/-- `_post_filter(search, urlkwargs, definitions)`: as `_query_filter` but
applying via `search.post_filter`. -/
def _post_filter {α β : Type} (req : Multi) (search : Search α β)
    (urlkwargs : Multi) (definitions : List (String × FilterFactory α)) :
    Option FieldError × Search α β × Multi :=
  match _create_filter_dsl req urlkwargs definitions with
  | (some e, _, uk) => (some e, search, uk)
  | (none, filters, uk) => (none, filters.foldl Search.post_filter search, uk)

/-- `_aggregations(search, definitions)`: when the definitions dict is truthy,
assign `search.aggs[name] = agg if not callable(agg) else agg()` for each
entry in order. -/
def _aggregations {α β : Type} (search : Search α β)
    (definitions : List (String × AggDef β)) : Search α β :=
  if definitions.isEmpty then search
  else { search with
          aggs := definitions.foldl
            (fun d p => setKey d p.1 (resolveAgg p.2)) search.aggs }

/-- Split a character list on commas (each occurrence of `,` separates two
parts; the empty list gives one empty part). -/
def splitComma : List Char → List (List Char)
  | ',' :: rest => [] :: splitComma rest
  | c :: rest =>
    match splitComma rest with
    | [] => [[c]]
    | h :: t => (c :: h) :: t
  | [] => [[]]

/-- Modelled from the spec: `make_comma_list_a_list` from
`invenio_records_rest.utils` (whose source file is not part of this
repository snapshot) normalises the requested facet names — "a single value
may itself be a comma-separated list (flattened into individual names)". -/
def make_comma_list_a_list (elements : List String) : List String :=
  (elements.map (fun e => (splitComma e.data).map String.mk)).flatten

/-- `default_facets_factory(search, index)`: look up the per-index facet
configuration (`none` models an index with no entry in
`RECORDS_REST_FACETS`); select and attach aggregations; then run the query
filters and the post filters.  Returns the raised error (if any) together
with the search and `urlkwargs` state at the moment of propagation. -/
def default_facets_factory {α β : Type} (config : Option (FacetConfig α β))
    (req : Multi) (search : Search α β) :
    Option FieldError × Search α β × Multi :=
  let urlkwargs : Multi := []
  match config with
  | none => (none, search, urlkwargs)
  | some facets =>
    let selected_facets := make_comma_list_a_list (Multi.getAll req "facets")
    let all_aggs := facets.aggs
    let search :=
      if selected_facets.isEmpty then _aggregations search all_aggs
      else if !selected_facets.isEmpty && !all_aggs.isEmpty then
        _aggregations search
          (all_aggs.filter fun p => selected_facets.contains p.1)
      else search
    match _query_filter req search urlkwargs facets.filters with
    | (some e, search, uk) => (some e, search, uk)
    | (none, search, uk) => _post_filter req search uk facets.post_filters

/-! ## Spec-side descriptions

Definitions below transcribe the specification's wording (not the code), to
be compared with the embedded code. -/

/-- The bound contributed by one side's token, as the spec words it: an empty
token contributes no bound; a non-empty token whose first character is the
side's strictness marker contributes the strict key with the marker stripped,
otherwise the non-strict key with the token unmodified; when a date anchor is
configured for the side, the value is extended with the suffix `||anchor`. -/
def specSideArg (tok : String) (mark : Char) (strictKey nonstrictKey : String)
    (dateMath : Option String) : Dict :=
  match tok.data with
  | [] => []
  | c :: rest =>
    let kv := if c = mark then (strictKey, String.mk rest) else (nonstrictKey, tok)
    match dateMath with
    | some dm => [(kv.1, kv.2 ++ "||" ++ dm)]
    | none => [(kv.1, kv.2)]

/-- The populated bound keys for a start token `a` and an end token `b`, as
the spec words them: the start side uses marker `>` and keys `gt`/`gte`, the
end side marker `<` and keys `lt`/`lte`. -/
def specRangeArgs (a b : String) (sdm edm : Option String) : Dict :=
  specSideArg a '>' "gt" "gte" sdm ++ specSideArg b '<' "lt" "lte" edm

/-- The filter expressions the spec says the collector produces: for each
definition in configuration order, skip it when the request holds no values
under its name, otherwise the factory's successful result. -/
def specFilterList {α : Type} (req : Multi)
    (defs : List (String × FilterFactory α)) : List α :=
  defs.filterMap fun p =>
    if (Multi.getAll req p.1).isEmpty then none
    else (p.2 (Multi.getAll req p.1)).toOption

/-- The canonical echo the spec says the collector appends: one entry per
literal value under each name that holds values, in configuration order and
preserving each value list's order. -/
def specEcho {α : Type} (req : Multi)
    (defs : List (String × FilterFactory α)) : Multi :=
  (defs.map fun p =>
    if (Multi.getAll req p.1).isEmpty then []
    else (Multi.getAll req p.1).map fun v => (p.1, v)).flatten

/-- The aggregation-attachment step of `default_facets_factory` (the two
`if` branches selecting which aggregations to attach), named for use in
proofs; definitionally equal to the corresponding prefix of the orchestrator
body. -/
def aggStep {α β : Type} (cfg : FacetConfig α β) (req : Multi)
    (s : Search α β) : Search α β :=
  let selected_facets := make_comma_list_a_list (Multi.getAll req "facets")
  let all_aggs := cfg.aggs
  if selected_facets.isEmpty then _aggregations s all_aggs
  else if !selected_facets.isEmpty && !all_aggs.isEmpty then
    _aggregations s (all_aggs.filter fun p => selected_facets.contains p.1)
  else s

/-! ## Helper lemmas -/

theorem setKey_of_fresh {β : Type} (d : List (String × β)) (k : String) (v : β)
    (h : d.any (fun q => q.1 == k) = false) : setKey d k v = d ++ [(k, v)] := by
  simp [setKey, h]

theorem foldl_setKey_fresh {β : Type} (l : List (String × β)) :
    ∀ acc : List (String × β), (l.map Prod.fst).Nodup →
      (∀ p ∈ l, acc.any (fun q => q.1 == p.1) = false) →
      l.foldl (fun d p => setKey d p.1 p.2) acc = acc ++ l := by
  induction l with
  | nil => intro acc _ _; simp
  | cons p rest ih =>
    intro acc hnd hfresh
    have h1 : setKey acc p.1 p.2 = acc ++ [(p.1, p.2)] :=
      setKey_of_fresh _ _ _ (hfresh p (List.mem_cons_self _ _))
    have hnd' : (rest.map Prod.fst).Nodup := (List.nodup_cons.mp hnd).2
    have hp : p.1 ∉ rest.map Prod.fst := (List.nodup_cons.mp hnd).1
    have hfresh' : ∀ q ∈ rest, (acc ++ [(p.1, p.2)]).any (fun r => r.1 == q.1) = false := by
      intro q hq
      have hne : (p.1 == q.1) = false := by
        refine beq_eq_false_iff_ne.mpr ?_
        intro he
        exact hp (he ▸ List.mem_map_of_mem Prod.fst hq)
      simp [List.any_append, hfresh q (List.mem_cons_of_mem _ hq), hne]
    calc ((p :: rest).foldl (fun d q => setKey d q.1 q.2) acc)
        = rest.foldl (fun d q => setKey d q.1 q.2) (acc ++ [(p.1, p.2)]) := by
          simp [List.foldl_cons, h1]
      _ = (acc ++ [(p.1, p.2)]) ++ rest := ih _ hnd' hfresh'
      _ = acc ++ p :: rest := by simp

theorem getAll_append (m1 m2 : Multi) (n : String) :
    Multi.getAll (m1 ++ m2) n = Multi.getAll m1 n ++ Multi.getAll m2 n := by
  simp [Multi.getAll, List.filter_append]

theorem foldl_add_eq (vs : List String) : ∀ (uk : Multi) (n : String),
    vs.foldl (fun uk v => Multi.add uk n v) uk = uk ++ vs.map (fun v => (n, v)) := by
  induction vs with
  | nil => intro uk n; simp
  | cons v rest ih =>
    intro uk n
    rw [List.foldl_cons, ih]
    simp [Multi.add]

theorem getAll_self_map (vs : List String) (n : String) :
    Multi.getAll (vs.map fun v => (n, v)) n = vs := by
  induction vs with
  | nil => rfl
  | cons v rest ih => simp [Multi.getAll, List.filter] at ih ⊢; simpa using ih

theorem rangeSide_nil (tok : String) (mark : Char) (k1 k2 : String)
    (dm : Option String) :
    rangeSide [] tok mark k1 k2 dm = specSideArg tok mark k1 k2 dm := by
  unfold rangeSide specSideArg
  cases h : tok.data with
  | nil => rfl
  | cons c rest =>
    by_cases hc : c = mark <;> cases dm <;> simp [hc, setKey]

theorem specSideArg_shape (tok : String) (mark : Char) (k1 k2 : String)
    (dm : Option String) :
    specSideArg tok mark k1 k2 dm = [] ∨
      (∃ w, specSideArg tok mark k1 k2 dm = [(k1, w)]) ∨
      (∃ w, specSideArg tok mark k1 k2 dm = [(k2, w)]) := by
  unfold specSideArg
  cases h : tok.data with
  | nil => exact Or.inl rfl
  | cons c rest =>
    by_cases hc : c = mark <;> cases dm <;> simp [hc]

theorem rangeSide_fresh (d : Dict) (tok : String) (mark : Char)
    (k1 k2 : String) (dm : Option String)
    (h1 : d.any (fun q => q.1 == k1) = false)
    (h2 : d.any (fun q => q.1 == k2) = false) :
    rangeSide d tok mark k1 k2 dm = d ++ specSideArg tok mark k1 k2 dm := by
  unfold rangeSide specSideArg
  cases h : tok.data with
  | nil => simp
  | cons c rest =>
    by_cases hc : c = mark <;> cases dm <;>
      simp [hc, setKey_of_fresh _ _ _ h1, setKey_of_fresh _ _ _ h2]

/-- The central computation of `range_filter` on a valid input: the `Range`
query's arguments are the caller's `kwargs` updated with exactly the
spec-described bound keys for the two tokens. -/
theorem range_filter_ok_eq (f : String) (sdm edm : Option String) (kw : Dict)
    (v a b : String) (hc : pyCountDD v = 1) (hne : v ≠ "--")
    (hs : pySplitDD v = [a, b]) :
    range_filter f sdm edm kw [v] =
      .ok ⟨f, Dict.update kw (specRangeArgs a b sdm edm)⟩ := by
  have hcond : ¬(([v] : List String).length ≠ 1 ∨
      pyCountDD (([v] : List String).headD "") ≠ 1 ∨
      ([v] : List String).headD "" = "--") := by
    simp [hc, hne]
  unfold range_filter
  rw [if_neg hcond]
  have hhead : ([v] : List String).headD "" = v := rfl
  rw [hhead, hs]
  simp only [List.zip, List.zipWith, List.foldl_cons, List.foldl_nil]
  rw [rangeSide_nil]
  have hfresh1 : (specSideArg a '>' "gt" "gte" sdm).any (fun q => q.1 == "lt") = false := by
    rcases specSideArg_shape a '>' "gt" "gte" sdm with h | ⟨w, h⟩ | ⟨w, h⟩ <;> simp [h]
  have hfresh2 : (specSideArg a '>' "gt" "gte" sdm).any (fun q => q.1 == "lte") = false := by
    rcases specSideArg_shape a '>' "gt" "gte" sdm with h | ⟨w, h⟩ | ⟨w, h⟩ <;> simp [h]
  rw [rangeSide_fresh _ _ _ _ _ _ hfresh1 hfresh2]
  rfl

theorem get?_nil (k' : String) : Dict.get? [] k' = none := rfl

theorem get?_cons (q : String × String) (rest : Dict) (k' : String) :
    Dict.get? (q :: rest) k' =
      if q.1 = k' then some q.2 else Dict.get? rest k' := by
  rcases h : (q.1 == k') with _ | _
  · have hne : ¬(q.1 = k') := by simpa using h
    simp only [Dict.get?, List.find?, h, if_neg hne]
  · have heq : q.1 = k' := by simpa using h
    simp only [Dict.get?, List.find?, h, if_pos heq]
    rfl

theorem get?_append_fresh (d : Dict) (k v k' : String)
    (h : d.any (fun q => q.1 == k) = false) :
    Dict.get? (d ++ [(k, v)]) k' = if k' = k then some v else d.get? k' := by
  induction d with
  | nil =>
    rw [List.nil_append, get?_cons]
    by_cases hk : k' = k
    · simp [hk]
    · simp [get?_nil, hk, Ne.symm hk]
  | cons q rest ih =>
    simp only [List.any_cons, Bool.or_eq_false_iff] at h
    obtain ⟨hq, hrest⟩ := h
    rw [List.cons_append, get?_cons, get?_cons, ih hrest]
    by_cases hq' : q.1 = k'
    · have hk : ¬(k' = k) := by
        intro he
        rw [he] at hq'
        simp [hq'] at hq
      simp [hq', hk]
    · simp [hq']

theorem get?_map_replace (d : Dict) (k v k' : String) :
    Dict.get? (d.map fun q => if q.1 == k then (k, v) else q) k' =
      if k' = k then (if d.any (fun q => q.1 == k) then some v else none)
      else d.get? k' := by
  induction d with
  | nil =>
    rw [List.map_nil]
    by_cases hk : k' = k <;> simp [get?_nil, hk]
  | cons q rest ih =>
    rw [List.map_cons, List.any_cons]
    by_cases hq : q.1 = k
    · have hbq : (q.1 == k) = true := beq_iff_eq.mpr hq
      rw [hbq, if_pos rfl, get?_cons, get?_cons, Bool.true_or]
      by_cases hk : k' = k
      · rw [if_pos (show (k, v).1 = k' from hk.symm), if_pos hk]
        simp
      · have h2 : ¬(q.1 = k') := fun he => hk (by rw [← he, hq])
        rw [if_neg (show ¬(k, v).1 = k' from fun he => hk he.symm), ih,
          if_neg hk, if_neg hk, if_neg h2]
    · have hbq : (q.1 == k) = false := beq_eq_false_iff_ne.mpr hq
      rw [hbq, if_neg (by simp), get?_cons, get?_cons, ih, Bool.false_or]
      by_cases hq' : q.1 = k'
      · have hk : ¬(k' = k) := fun he => hq (by rw [hq', he])
        rw [if_pos hq', if_pos hq', if_neg hk]
      · rw [if_neg hq', if_neg hq']

theorem get?_setKey (d : Dict) (k v k' : String) :
    Dict.get? (setKey d k v) k' = if k' = k then some v else d.get? k' := by
  unfold setKey
  by_cases hany' : (d.any fun q => q.1 == k) = true
  · rw [if_pos hany', get?_map_replace, hany']
    by_cases hk : k' = k <;> simp [hk]
  · have hany : (d.any fun q => q.1 == k) = false := Bool.eq_false_iff.mpr hany'
    rw [if_neg (by simp [hany])]
    exact get?_append_fresh d k v k' hany

theorem get?_eq_none_of_not_mem (d : Dict) (k : String)
    (h : k ∉ d.map Prod.fst) : d.get? k = none := by
  induction d with
  | nil => rfl
  | cons q rest ih =>
    simp only [List.map_cons, List.mem_cons, not_or] at h
    have : (q.1 == k) = false := beq_eq_false_iff_ne.mpr (fun he => h.1 he.symm)
    simp only [Dict.get?, List.find?, this]
    exact ih h.2

theorem get?_update_none (other : Dict) : ∀ (d : Dict) (k : String),
    other.get? k = none → (Dict.update d other).get? k = d.get? k := by
  induction other with
  | nil => intro d k _; rfl
  | cons q rest ih =>
    intro d k h
    simp only [Dict.get?, List.find?] at h
    rcases hq : (q.1 == k) with _ | _
    · rw [hq] at h
      have hrest : Dict.get? rest k = none := h
      have : Dict.update d (q :: rest) = Dict.update (setKey d q.1 q.2) rest := rfl
      rw [this, ih _ _ hrest, get?_setKey]
      have : ¬(k = q.1) := fun he => by simp [he] at hq
      simp [this]
    · rw [hq] at h; exact absurd h (by simp)

theorem get?_update_some (other : Dict) : ∀ (d : Dict),
    (other.map Prod.fst).Nodup → ∀ (k w : String),
    other.get? k = some w → (Dict.update d other).get? k = some w := by
  induction other with
  | nil => intro d _ k w h; exact absurd h (by simp [Dict.get?])
  | cons q rest ih =>
    intro d hnd k w h
    have hstep : Dict.update d (q :: rest) = Dict.update (setKey d q.1 q.2) rest := rfl
    simp only [Dict.get?, List.find?] at h
    rcases hq : (q.1 == k) with _ | _
    · rw [hq] at h
      exact hstep ▸ ih _ (List.nodup_cons.mp hnd).2 k w h
    · rw [hq] at h
      have hw : w = q.2 := by simpa using h.symm
      have hk : k = q.1 := (beq_iff_eq.mp hq).symm
      have hrest : Dict.get? rest k = none := by
        refine get?_eq_none_of_not_mem rest k ?_
        rw [hk]; exact (List.nodup_cons.mp hnd).1
      rw [hstep, get?_update_none rest _ _ hrest, get?_setKey]
      simp [hk, hw]

theorem update_nil_of_nodup (d : Dict) (h : (d.map Prod.fst).Nodup) :
    Dict.update [] d = d := by
  have := foldl_setKey_fresh d [] h (by intro p _; rfl)
  simpa [Dict.update] using this

theorem specRangeArgs_nodup (a b : String) (sdm edm : Option String) :
    ((specRangeArgs a b sdm edm).map Prod.fst).Nodup := by
  unfold specRangeArgs
  rcases specSideArg_shape a '>' "gt" "gte" sdm with h1 | ⟨w1, h1⟩ | ⟨w1, h1⟩ <;>
    rcases specSideArg_shape b '<' "lt" "lte" edm with h2 | ⟨w2, h2⟩ | ⟨w2, h2⟩ <;>
      simp [h1, h2]

/-! ### Collector lemmas -/

theorem createAux_success {α : Type} (req : Multi)
    (defs : List (String × FilterFactory α)) :
    ∀ (fs : List α) (uk : Multi),
      (∀ p ∈ defs, (Multi.getAll req p.1).isEmpty = false →
        ∃ e, p.2 (Multi.getAll req p.1) = .ok e) →
      createFilterDslAux req defs fs uk =
        (none, fs ++ specFilterList req defs, uk ++ specEcho req defs) := by
  induction defs with
  | nil => intro fs uk _; simp [createFilterDslAux, specFilterList, specEcho]
  | cons p rest ih =>
    intro fs uk hok
    obtain ⟨name, ff⟩ := p
    rcases hv : (Multi.getAll req name).isEmpty with _ | _
    · obtain ⟨e, he⟩ := hok (name, ff) (List.mem_cons_self _ _) hv
      have he' : ff (Multi.getAll req name) = Except.ok e := he
      have hrest := ih (fs ++ [e])
        (uk ++ (Multi.getAll req name).map fun v => (name, v))
        (fun q hq => hok q (List.mem_cons_of_mem _ hq))
      simp only [createFilterDslAux, hv, Bool.false_eq_true, if_false, he',
        foldl_add_eq, hrest, specFilterList, specEcho, List.filterMap_cons,
        List.map_cons, List.flatten_cons, Except.toOption, List.append_assoc]
      simp [hv, he']
    · have hrest := ih fs uk (fun q hq => hok q (List.mem_cons_of_mem _ hq))
      simp only [createFilterDslAux, hv, if_true, hrest, specFilterList,
        specEcho, List.filterMap_cons, List.map_cons, List.flatten_cons]
      simp [hv]

theorem createAux_echo_mem {α : Type} (req : Multi)
    (defs : List (String × FilterFactory α)) :
    ∀ (fs : List α) (uk : Multi) (n v : String),
      (n, v) ∈ (createFilterDslAux req defs fs uk).2.2 →
      (n, v) ∈ uk ∨ (v ∈ Multi.getAll req n ∧
        ∃ ff, (n, ff) ∈ defs ∧ ∃ e, ff (Multi.getAll req n) = Except.ok e) := by
  induction defs with
  | nil => intro fs uk n v h; exact Or.inl h
  | cons p rest ih =>
    intro fs uk n v h
    obtain ⟨name, ff⟩ := p
    rcases hv : (Multi.getAll req name).isEmpty with _ | _
    · rcases hff : ff (Multi.getAll req name) with e | x
      · rw [createFilterDslAux] at h
        simp only [hv, Bool.false_eq_true, if_false, hff] at h
        exact Or.inl h
      · rw [createFilterDslAux] at h
        simp only [hv, Bool.false_eq_true, if_false, hff, foldl_add_eq] at h
        rcases ih _ _ _ _ h with hin | ⟨hval, ff', hmem, e, he⟩
        · rcases List.mem_append.mp hin with hin | hin
          · exact Or.inl hin
          · obtain ⟨w, hw, hpair⟩ := List.mem_map.mp hin
            injection hpair with h1 h2
            subst h1
            subst h2
            exact Or.inr ⟨hw, ff, List.mem_cons_self _ _, x, hff⟩
        · exact Or.inr ⟨hval, ff', List.mem_cons_of_mem _ hmem, e, he⟩
    · rw [createFilterDslAux] at h
      simp only [hv, if_true] at h
      rcases ih _ _ _ _ h with hin | ⟨hval, ff', hmem, e, he⟩
      · exact Or.inl hin
      · exact Or.inr ⟨hval, ff', List.mem_cons_of_mem _ hmem, e, he⟩

theorem createAux_fail {α : Type} (req : Multi)
    (pre : List (String × FilterFactory α)) :
    ∀ (n₀ : String) (ff₀ : FilterFactory α) (e₀ : FieldError)
      (post : List (String × FilterFactory α)) (fs : List α) (uk : Multi),
      (∀ p ∈ pre, (Multi.getAll req p.1).isEmpty = false →
        ∃ e, p.2 (Multi.getAll req p.1) = .ok e) →
      (Multi.getAll req n₀).isEmpty = false →
      ff₀ (Multi.getAll req n₀) = .error e₀ →
      createFilterDslAux req (pre ++ (n₀, ff₀) :: post) fs uk =
        (some e₀, fs ++ specFilterList req pre, uk ++ specEcho req pre) := by
  induction pre with
  | nil =>
    intro n₀ ff₀ e₀ post fs uk _ hvals hfail
    simp [createFilterDslAux, hvals, hfail, specFilterList, specEcho]
  | cons p rest ih =>
    intro n₀ ff₀ e₀ post fs uk hpre hvals hfail
    obtain ⟨name, ff⟩ := p
    rcases hv : (Multi.getAll req name).isEmpty with _ | _
    · obtain ⟨e, he⟩ := hpre (name, ff) (List.mem_cons_self _ _) hv
      have he' : ff (Multi.getAll req name) = Except.ok e := he
      have hrest := ih n₀ ff₀ e₀ post (fs ++ [e])
        (uk ++ (Multi.getAll req name).map fun v => (name, v))
        (fun q hq => hpre q (List.mem_cons_of_mem _ hq)) hvals hfail
      have hne : Multi.getAll req name ≠ [] := by simpa using hv
      rw [List.cons_append, createFilterDslAux]
      simp only [hv, Bool.false_eq_true, if_false, he', foldl_add_eq]
      rw [hrest]
      simp [specFilterList, specEcho, hne, he', List.filterMap_cons,
        Except.toOption]
    · have hnil : Multi.getAll req name = [] := by simpa using hv
      have hrest := ih n₀ ff₀ e₀ post fs uk
        (fun q hq => hpre q (List.mem_cons_of_mem _ hq)) hvals hfail
      rw [List.cons_append, createFilterDslAux]
      simp only [hv, if_true]
      rw [hrest]
      simp [specFilterList, specEcho, hnil]

/-! ### Search-state lemmas -/

theorem foldl_filter_parts {α β : Type} (fs : List α) :
    ∀ s : Search α β,
      (fs.foldl Search.filter s).filters = s.filters ++ fs ∧
      (fs.foldl Search.filter s).postFilters = s.postFilters ∧
      (fs.foldl Search.filter s).aggs = s.aggs := by
  induction fs with
  | nil => intro s; simp
  | cons f rest ih =>
    intro s
    obtain ⟨h1, h2, h3⟩ := ih (s.filter f)
    rw [List.foldl_cons]
    refine ⟨?_, ?_, ?_⟩
    · rw [h1]; simp [Search.filter]
    · rw [h2]; simp [Search.filter]
    · rw [h3]; simp [Search.filter]

theorem foldl_post_filter_parts {α β : Type} (fs : List α) :
    ∀ s : Search α β,
      (fs.foldl Search.post_filter s).postFilters = s.postFilters ++ fs ∧
      (fs.foldl Search.post_filter s).filters = s.filters ∧
      (fs.foldl Search.post_filter s).aggs = s.aggs := by
  induction fs with
  | nil => intro s; simp
  | cons f rest ih =>
    intro s
    obtain ⟨h1, h2, h3⟩ := ih (s.post_filter f)
    rw [List.foldl_cons]
    refine ⟨?_, ?_, ?_⟩
    · rw [h1]; simp [Search.post_filter]
    · rw [h2]; simp [Search.post_filter]
    · rw [h3]; simp [Search.post_filter]

theorem _aggregations_parts {α β : Type} (s : Search α β)
    (defs : List (String × AggDef β)) :
    (_aggregations s defs).filters = s.filters ∧
    (_aggregations s defs).postFilters = s.postFilters := by
  unfold _aggregations
  split <;> simp

theorem _aggregations_aggs_of_nil {α β : Type} (s : Search α β)
    (defs : List (String × AggDef β)) (h0 : s.aggs = [])
    (hnd : (defs.map Prod.fst).Nodup) :
    (_aggregations s defs).aggs = defs.map fun p => (p.1, resolveAgg p.2) := by
  unfold _aggregations
  rcases hd : defs.isEmpty with _ | _
  · have hmapnd : ((defs.map fun p => (p.1, resolveAgg p.2)).map Prod.fst).Nodup := by
      simpa [List.map_map, Function.comp] using hnd
    have hfold := foldl_setKey_fresh (defs.map fun p => (p.1, resolveAgg p.2)) []
      hmapnd (fun p _ => rfl)
    rw [List.foldl_map] at hfold
    simp only [hd, Bool.false_eq_true, if_false, h0]
    simpa using hfold
  · have hdef : defs = [] := List.isEmpty_iff.mp hd
    subst hdef
    simp [h0]

theorem _query_filter_uk {α β : Type} (req : Multi) (s : Search α β)
    (uk : Multi) (defs : List (String × FilterFactory α)) :
    (_query_filter req s uk defs).2.2 = (createFilterDslAux req defs [] uk).2.2 := by
  unfold _query_filter _create_filter_dsl
  rcases h : createFilterDslAux req defs [] uk with ⟨e, fs, uk'⟩
  cases e <;> simp

theorem _post_filter_uk {α β : Type} (req : Multi) (s : Search α β)
    (uk : Multi) (defs : List (String × FilterFactory α)) :
    (_post_filter req s uk defs).2.2 = (createFilterDslAux req defs [] uk).2.2 := by
  unfold _post_filter _create_filter_dsl
  rcases h : createFilterDslAux req defs [] uk with ⟨e, fs, uk'⟩
  cases e <;> simp

theorem _query_filter_ok {α β : Type} (req : Multi) (s : Search α β)
    (uk : Multi) (defs : List (String × FilterFactory α))
    (hok : ∀ p ∈ defs, (Multi.getAll req p.1).isEmpty = false →
      ∃ e, p.2 (Multi.getAll req p.1) = .ok e) :
    (_query_filter req s uk defs).1 = none ∧
    (_query_filter req s uk defs).2.1.filters = s.filters ++ specFilterList req defs ∧
    (_query_filter req s uk defs).2.1.postFilters = s.postFilters ∧
    (_query_filter req s uk defs).2.1.aggs = s.aggs ∧
    (_query_filter req s uk defs).2.2 = uk ++ specEcho req defs := by
  have h := createAux_success req defs [] uk hok
  unfold _query_filter _create_filter_dsl
  rw [h]
  obtain ⟨h1, h2, h3⟩ := foldl_filter_parts (β := β) (specFilterList req defs) s
  simp [h1, h2, h3]

theorem _post_filter_ok {α β : Type} (req : Multi) (s : Search α β)
    (uk : Multi) (defs : List (String × FilterFactory α))
    (hok : ∀ p ∈ defs, (Multi.getAll req p.1).isEmpty = false →
      ∃ e, p.2 (Multi.getAll req p.1) = .ok e) :
    (_post_filter req s uk defs).1 = none ∧
    (_post_filter req s uk defs).2.1.postFilters = s.postFilters ++ specFilterList req defs ∧
    (_post_filter req s uk defs).2.1.filters = s.filters ∧
    (_post_filter req s uk defs).2.1.aggs = s.aggs ∧
    (_post_filter req s uk defs).2.2 = uk ++ specEcho req defs := by
  have h := createAux_success req defs [] uk hok
  unfold _post_filter _create_filter_dsl
  rw [h]
  obtain ⟨h1, h2, h3⟩ := foldl_post_filter_parts (β := β) (specFilterList req defs) s
  simp [h1, h2, h3]

theorem _query_filter_fail {α β : Type} (req : Multi) (s : Search α β)
    (uk : Multi) (pre post : List (String × FilterFactory α)) (n₀ : String)
    (ff₀ : FilterFactory α) (e₀ : FieldError)
    (hpre : ∀ p ∈ pre, (Multi.getAll req p.1).isEmpty = false →
      ∃ e, p.2 (Multi.getAll req p.1) = .ok e)
    (hvals : (Multi.getAll req n₀).isEmpty = false)
    (hfail : ff₀ (Multi.getAll req n₀) = .error e₀) :
    _query_filter req s uk (pre ++ (n₀, ff₀) :: post) =
      (some e₀, s, uk ++ specEcho req pre) := by
  have h := createAux_fail req pre n₀ ff₀ e₀ post [] uk hpre hvals hfail
  unfold _query_filter _create_filter_dsl
  rw [h]

theorem _post_filter_fail {α β : Type} (req : Multi) (s : Search α β)
    (uk : Multi) (pre post : List (String × FilterFactory α)) (n₀ : String)
    (ff₀ : FilterFactory α) (e₀ : FieldError)
    (hpre : ∀ p ∈ pre, (Multi.getAll req p.1).isEmpty = false →
      ∃ e, p.2 (Multi.getAll req p.1) = .ok e)
    (hvals : (Multi.getAll req n₀).isEmpty = false)
    (hfail : ff₀ (Multi.getAll req n₀) = .error e₀) :
    _post_filter req s uk (pre ++ (n₀, ff₀) :: post) =
      (some e₀, s, uk ++ specEcho req pre) := by
  have h := createAux_fail req pre n₀ ff₀ e₀ post [] uk hpre hvals hfail
  unfold _post_filter _create_filter_dsl
  rw [h]

theorem keys_nodup_eq {γ : Type} (l : List (String × γ))
    (hnd : (l.map Prod.fst).Nodup) (n : String) (a b : γ)
    (ha : (n, a) ∈ l) (hb : (n, b) ∈ l) : a = b := by
  induction l with
  | nil => cases ha
  | cons q rest ih =>
    obtain ⟨hq, hnd'⟩ := List.nodup_cons.mp hnd
    rcases List.mem_cons.mp ha with ha' | ha' <;>
      rcases List.mem_cons.mp hb with hb' | hb'
    · have : (n, a) = (n, b) := ha'.trans hb'.symm
      exact congrArg Prod.snd this
    · exfalso
      apply hq
      have hq1 : q.1 = n := congrArg Prod.fst ha'.symm
      rw [hq1]
      exact List.mem_map_of_mem Prod.fst hb'
    · exfalso
      apply hq
      have hq1 : q.1 = n := congrArg Prod.fst hb'.symm
      rw [hq1]
      exact List.mem_map_of_mem Prod.fst ha'
    · exact ih hnd' ha' hb'

theorem facets_shape {α β : Type} (cfg : FacetConfig α β) (req : Multi)
    (s : Search α β) :
    default_facets_factory (some cfg) req s =
      match _query_filter req (aggStep cfg req s) [] cfg.filters with
      | (some e, s', uk) => (some e, s', uk)
      | (none, s', uk) => _post_filter req s' uk cfg.post_filters := rfl

theorem aggStep_parts {α β : Type} (cfg : FacetConfig α β) (req : Multi)
    (s : Search α β) :
    (aggStep cfg req s).filters = s.filters ∧
    (aggStep cfg req s).postFilters = s.postFilters := by
  simp only [aggStep]
  rcases hb1 : (make_comma_list_a_list (Multi.getAll req "facets")).isEmpty with _ | _
  · rcases hb2 : cfg.aggs.isEmpty with _ | _
    · simp only [hb1, hb2, Bool.not_false, Bool.and_self, Bool.false_eq_true,
        if_false, if_true]
      exact _aggregations_parts s _
    · simp only [hb1, hb2, Bool.not_false, Bool.not_true, Bool.and_false,
        Bool.false_eq_true, if_false]
      exact ⟨trivial, trivial⟩
  · simp only [hb1, if_true]
    exact _aggregations_parts s cfg.aggs

theorem _query_filter_parts {α β : Type} (req : Multi) (s : Search α β)
    (uk : Multi) (defs : List (String × FilterFactory α)) :
    (_query_filter req s uk defs).2.1.postFilters = s.postFilters ∧
    (_query_filter req s uk defs).2.1.aggs = s.aggs := by
  unfold _query_filter _create_filter_dsl
  rcases h : createFilterDslAux req defs [] uk with ⟨e, fs, uk'⟩
  cases e
  · obtain ⟨_, h2, h3⟩ := foldl_filter_parts (β := β) fs s
    simp [h2, h3]
  · simp

theorem _post_filter_parts {α β : Type} (req : Multi) (s : Search α β)
    (uk : Multi) (defs : List (String × FilterFactory α)) :
    (_post_filter req s uk defs).2.1.filters = s.filters ∧
    (_post_filter req s uk defs).2.1.aggs = s.aggs := by
  unfold _post_filter _create_filter_dsl
  rcases h : createFilterDslAux req defs [] uk with ⟨e, fs, uk'⟩
  cases e
  · obtain ⟨_, h2, h3⟩ := foldl_post_filter_parts (β := β) fs s
    simp [h2, h3]
  · simp

theorem string_eq_empty_of_data_nil (s : String) (h : s.data = []) : s = "" := by
  cases s with
  | mk d =>
    simp only [String.data] at h
    rw [h]

/-! ## Claim theorems -/

/-- C1: the range filter factory, applied to a list of values, raises the
field-scoped validation error with message "Invalid range format." if and
only if the list does not hold exactly one value, or that value does not
contain exactly one occurrence of `--`, or the value is exactly `--`; on
every input satisfying all three conditions it returns a range expression
without error. -/
theorem C1_range_validation (f : String) (sdm edm : Option String) (kw : Dict)
    (values : List String) :
    (range_filter f sdm edm kw values =
        .error ⟨f, "Invalid range format."⟩ ↔
      (values.length ≠ 1 ∨ pyCountDD (values.headD "") ≠ 1 ∨
        values.headD "" = "--")) ∧
    (¬(values.length ≠ 1 ∨ pyCountDD (values.headD "") ≠ 1 ∨
        values.headD "" = "--") →
      ∃ q, range_filter f sdm edm kw values = .ok q) := by
  unfold range_filter
  by_cases hcond : (values.length ≠ 1 ∨ pyCountDD (values.headD "") ≠ 1 ∨
      values.headD "" = "--")
  · rw [if_pos hcond]
    exact ⟨⟨fun _ => hcond, fun _ => rfl⟩, fun h => absurd hcond h⟩
  · rw [if_neg hcond]
    exact ⟨⟨fun h => absurd h (by simp), fun hc => absurd hc hcond⟩,
      fun _ => ⟨_, rfl⟩⟩

theorem C1_witness :
    range_filter "year" none none [] ["a--b--c"] =
      .error ⟨"year", "Invalid range format."⟩ ∧
    range_filter "year" none none [] ["--"] =
      .error ⟨"year", "Invalid range format."⟩ ∧
    ∃ q, range_filter "year" none none [] ["2000--2010"] = .ok q :=
  ⟨(C1_range_validation "year" none none [] ["a--b--c"]).1.mpr (by decide),
   (C1_range_validation "year" none none [] ["--"]).1.mpr (by decide),
   (C1_range_validation "year" none none [] ["2000--2010"]).2 (by decide)⟩

/-- C2: for a valid single range value split on `--` into a start token `a`
and an end token `b`, the bounds are exactly as the spec describes them
(`specRangeArgs`, with no date anchors configured): an empty token gives no
bound, a leading `>` on the start gives a strict `gt` bound with the marker
stripped, otherwise an inclusive `gte` bound with the token unmodified, and
symmetrically `<`/`lt`/`lte` on the end side; in particular, for non-empty
unmarked tokens the bounds are inclusive and exactly `a` and `b`. -/
theorem C2_range_bounds (f v a b : String) (hc : pyCountDD v = 1)
    (hne : v ≠ "--") (hs : pySplitDD v = [a, b]) :
    range_filter f none none [] [v] =
      .ok ⟨f, specRangeArgs a b none none⟩ ∧
    (a ≠ "" → b ≠ "" → a.data.headD ' ' ≠ '>' → b.data.headD ' ' ≠ '<' →
      range_filter f none none [] [v] = .ok ⟨f, [("gte", a), ("lte", b)]⟩) := by
  have h := range_filter_ok_eq f none none [] v a b hc hne hs
  have hupd : Dict.update [] (specRangeArgs a b none none) =
      specRangeArgs a b none none :=
    update_nil_of_nodup _ (specRangeArgs_nodup a b none none)
  rw [h, hupd]
  refine ⟨rfl, fun ha hb hma hmb => ?_⟩
  suffices hargs : specRangeArgs a b none none = [("gte", a), ("lte", b)] by
    rw [hargs]
  unfold specRangeArgs specSideArg
  cases hda : a.data with
  | nil => exact absurd (string_eq_empty_of_data_nil a hda) ha
  | cons c rest =>
    cases hdb : b.data with
    | nil => exact absurd (string_eq_empty_of_data_nil b hdb) hb
    | cons c' rest' =>
      have hca : ¬(c = '>') := by rw [hda] at hma; simpa using hma
      have hcb : ¬(c' = '<') := by rw [hdb] at hmb; simpa using hmb
      simp [hca, hcb]

theorem C2_witness :
    range_filter "year" none none [] ["2000--2010"] =
      .ok ⟨"year", [("gte", "2000"), ("lte", "2010")]⟩ :=
  (C2_range_bounds "year" "2000--2010" "2000" "2010" (by decide)
    (by decide) (by decide)).2 (by decide) (by decide) (by decide) (by decide)

/-- C8: the terms filter factory on field `f` applied to a non-empty value
list builds an expression meaning "the document's `f` value is a member of
exactly that set of raw string values", and permuting the input list yields
an equivalent expression (set semantics). -/
theorem C8_terms_semantics (f : String) (vs vs' : List String)
    (hne : vs ≠ []) (hperm : vs.Perm vs') :
    (∀ doc : String → String,
      (terms_filter f vs).matchesDoc doc ↔ doc f ∈ vs) ∧
    (∀ doc : String → String,
      ((terms_filter f vs).matchesDoc doc ↔
        (terms_filter f vs').matchesDoc doc)) :=
  ⟨fun _ => Iff.rfl, fun _ => hperm.mem_iff⟩

theorem C8_witness :
    ((terms_filter "f" ["x", "y"]).matchesDoc (fun _ => "y") ↔
      (fun _ => "y" : String → String) "f" ∈ ["x", "y"]) ∧
    ((terms_filter "f" ["x", "y"]).matchesDoc (fun _ => "y") ↔
      (terms_filter "f" ["y", "x"]).matchesDoc (fun _ => "y")) := by
  have h := C8_terms_semantics "f" ["x", "y"] ["y", "x"] (by decide)
    (List.Perm.swap _ _ _)
  exact ⟨h.1 _, h.2 _⟩

/-- C7: for every valid range input and caller-supplied extra options, the
resulting range expression on the field is the extra options updated with
exactly the populated bound keys; a populated bound key always wins over an
extra-option entry of the same key, and a key not populated by the bounds
keeps its extra-option value. -/
theorem C7_range_kwargs (f : String) (sdm edm : Option String) (kw : Dict)
    (v a b : String) (hc : pyCountDD v = 1) (hne : v ≠ "--")
    (hs : pySplitDD v = [a, b]) :
    range_filter f sdm edm kw [v] =
      .ok ⟨f, Dict.update kw (specRangeArgs a b sdm edm)⟩ ∧
    (∀ k w, (specRangeArgs a b sdm edm).get? k = some w →
      (Dict.update kw (specRangeArgs a b sdm edm)).get? k = some w) ∧
    (∀ k, (specRangeArgs a b sdm edm).get? k = none →
      (Dict.update kw (specRangeArgs a b sdm edm)).get? k = kw.get? k) := by
  refine ⟨range_filter_ok_eq f sdm edm kw v a b hc hne hs, ?_, ?_⟩
  · intro k w hw
    exact get?_update_some (specRangeArgs a b sdm edm) kw
      (specRangeArgs_nodup a b sdm edm) k w hw
  · intro k hk
    exact get?_update_none (specRangeArgs a b sdm edm) kw k hk

theorem C7_witness :
    range_filter "year" none none [("lte", "1990"), ("boost", "2")]
        [">2000--2010"] =
      .ok ⟨"year", Dict.update [("lte", "1990"), ("boost", "2")]
        (specRangeArgs ">2000" "2010" none none)⟩ ∧
    (Dict.update [("lte", "1990"), ("boost", "2")]
        (specRangeArgs ">2000" "2010" none none)).get? "lte" = some "2010" ∧
    (Dict.update [("lte", "1990"), ("boost", "2")]
        (specRangeArgs ">2000" "2010" none none)).get? "boost" = some "2" := by
  have h := C7_range_kwargs "year" none none [("lte", "1990"), ("boost", "2")]
    ">2000--2010" ">2000" "2010" (by decide) (by decide) (by decide)
  exact ⟨h.1, h.2.1 "lte" "2010" (by decide),
    (h.2.2 "boost" (by decide)).trans (by decide)⟩

/-- C10: for every field, the range filter invoked with the single value
`>--` (resp. `--<`) passes validation — the value is not literally `--` —
and returns a range expression whose strict lower (resp. upper) bound is the
empty string after the marker is stripped, with the date-math suffix
appended to the empty string when an anchor is configured for that side. -/
theorem C10_marker_only (f : String) (sdm edm : Option String) :
    range_filter f sdm edm [] [">--"] =
      .ok ⟨f, [("gt", match sdm with | some dm => "" ++ "||" ++ dm | none => "")]⟩ ∧
    range_filter f sdm edm [] ["--<"] =
      .ok ⟨f, [("lt", match edm with | some dm => "" ++ "||" ++ dm | none => "")]⟩ := by
  constructor
  · have h := range_filter_ok_eq f sdm edm [] ">--" ">" "" (by decide)
      (by decide) (by decide)
    rw [h, update_nil_of_nodup _ (specRangeArgs_nodup _ _ _ _)]
    cases sdm with
    | none =>
      have hargs : specRangeArgs ">" "" none edm = [("gt", "")] := rfl
      rw [hargs]
    | some dm =>
      have hargs : specRangeArgs ">" "" (some dm) edm =
          [("gt", "" ++ "||" ++ dm)] := rfl
      rw [hargs]
  · have h := range_filter_ok_eq f sdm edm [] "--<" "" "<" (by decide)
      (by decide) (by decide)
    rw [h, update_nil_of_nodup _ (specRangeArgs_nodup _ _ _ _)]
    cases edm with
    | none =>
      have hargs : specRangeArgs "" "<" sdm none = [("lt", "")] := rfl
      rw [hargs]
    | some dm =>
      have hargs : specRangeArgs "" "<" sdm (some dm) =
          [("lt", "" ++ "||" ++ dm)] := rfl
      rw [hargs]

theorem C10_witness :
    range_filter "year" (some "/d") none [] [">--"] =
      .ok ⟨"year", [("gt", "" ++ "||" ++ "/d")]⟩ ∧
    range_filter "year" none none [] ["--<"] = .ok ⟨"year", [("lt", "")]⟩ :=
  ⟨(C10_marker_only "year" (some "/d") none).1,
   (C10_marker_only "year" none none).2⟩

/-- C4: the filter-expression collector, for every (name, factory) pair in
configuration order: a name with no request values contributes no expression
and no echo entry; a name with values has its factory invoked on the full
ordered value list, the expression appended, and one echo entry appended per
literal value in the values' original order (characterised by the spec-side
`specFilterList` and `specEcho`; stated under the hypothesis that every
invoked factory succeeds, the no-failure case this claim describes). -/
theorem C4_collector {α : Type} (req uk : Multi)
    (defs : List (String × FilterFactory α))
    (hok : ∀ p ∈ defs, (Multi.getAll req p.1).isEmpty = false →
      ∃ e, p.2 (Multi.getAll req p.1) = .ok e) :
    _create_filter_dsl req uk defs =
      (none, specFilterList req defs, uk ++ specEcho req defs) := by
  unfold _create_filter_dsl
  simpa using createAux_success req defs [] uk hok

theorem C4_witness :
    _create_filter_dsl [("t", "x"), ("t", "y")] []
        [("t", fun vs => Except.ok (terms_filter "t" vs)),
         ("missing", fun vs => Except.ok (terms_filter "missing" vs))] =
      (none,
        specFilterList [("t", "x"), ("t", "y")]
          [("t", fun vs => Except.ok (terms_filter "t" vs)),
           ("missing", fun vs => Except.ok (terms_filter "missing" vs))],
        [] ++ specEcho [("t", "x"), ("t", "y")]
          [("t", fun vs => Except.ok (terms_filter "t" vs)),
           ("missing", fun vs => Except.ok (terms_filter "missing" vs))]) ∧
    specFilterList [("t", "x"), ("t", "y")]
        [("t", fun vs => Except.ok (terms_filter "t" vs)),
         ("missing", fun vs => Except.ok (terms_filter "missing" vs))] =
      [terms_filter "t" ["x", "y"]] ∧
    specEcho [("t", "x"), ("t", "y")]
        [("t", fun vs => Except.ok (terms_filter "t" vs)),
         ("missing", fun vs => Except.ok (terms_filter "missing" vs))] =
      [("t", "x"), ("t", "y")] := by
  refine ⟨C4_collector _ _ _ ?_, rfl, rfl⟩
  intro p hp
  rcases List.mem_cons.mp hp with h | h
  · subst h; exact fun _ => ⟨_, rfl⟩
  rcases List.mem_cons.mp h with h | h
  · subst h; exact fun _ => ⟨_, rfl⟩
  · cases h

theorem facets_result_aggs {α β : Type} (cfg : FacetConfig α β) (req : Multi)
    (s : Search α β) :
    (default_facets_factory (some cfg) req s).2.1.aggs =
      (aggStep cfg req s).aggs := by
  rw [facets_shape]
  rcases hqr : _query_filter req (aggStep cfg req s) [] cfg.filters
    with ⟨eq, s2, uk1⟩
  have hqa := (_query_filter_parts req (aggStep cfg req s) [] cfg.filters).2
  rw [hqr] at hqa
  cases eq with
  | some e => exact hqa
  | none =>
    have hpa := (_post_filter_parts req s2 uk1 cfg.post_filters).2
    exact hpa.trans hqa

/-- C3: aggregation selection — with no requested facet names every
configured aggregation is resolved and attached in configuration order; with
a non-empty requested set, exactly the configured aggregations whose names
appear in it are attached, in configuration order, and unknown requested
names are silently ignored (a request naming only unknown facets attaches no
aggregations, and no error arises from aggregation selection). -/
theorem C3_agg_selection {α β : Type} (cfg : FacetConfig α β) (req : Multi)
    (s : Search α β) (selected : List String)
    (hsel : make_comma_list_a_list (Multi.getAll req "facets") = selected)
    (hnd : (cfg.aggs.map Prod.fst).Nodup) (h0 : s.aggs = []) :
    (default_facets_factory (some cfg) req s).2.1.aggs =
      (if selected.isEmpty then cfg.aggs
       else cfg.aggs.filter fun p => selected.contains p.1).map
        (fun p => (p.1, resolveAgg p.2)) ∧
    (cfg.filters = [] → cfg.post_filters = [] →
      (default_facets_factory (some cfg) req s).1 = none) := by
  constructor
  · rw [facets_result_aggs]
    simp only [aggStep, hsel]
    rcases hb1 : selected.isEmpty with _ | _
    · rcases hb2 : cfg.aggs.isEmpty with _ | _
      · have hndf : ((cfg.aggs.filter fun p => selected.contains p.1).map
            Prod.fst).Nodup :=
          List.Nodup.sublist
            (List.Sublist.map Prod.fst (List.filter_sublist cfg.aggs)) hnd
        simp only [hb1, hb2, Bool.not_false, Bool.and_self, Bool.false_eq_true,
          if_false, if_true]
        rw [_aggregations_aggs_of_nil s _ h0 hndf]
      · have hnil : cfg.aggs = [] := List.isEmpty_iff.mp hb2
        simp only [hb1, hb2, Bool.not_false, Bool.not_true, Bool.and_false,
          Bool.false_eq_true, if_false, hnil]
        simp [h0]
    · simp only [hb1, if_true]
      rw [_aggregations_aggs_of_nil s cfg.aggs h0 hnd]
  · intro hf hp
    rw [facets_shape, hf, hp]
    rfl

theorem C3_witness :
    (default_facets_factory (α := Nat)
      (some ⟨[("a", AggDef.value 1), ("b", AggDef.lazy (fun _ => 2))], [], []⟩)
      [("facets", "b,z")] ⟨[], [], []⟩).2.1.aggs = [("b", 2)] ∧
    (default_facets_factory (α := Nat)
      (some ⟨[("a", AggDef.value 1), ("b", AggDef.lazy (fun _ => 2))], [], []⟩)
      [("facets", "b,z")] ⟨[], [], []⟩).1 = none := by
  have h := C3_agg_selection (α := Nat)
    ⟨[("a", AggDef.value 1), ("b", AggDef.lazy (fun _ => 2))], [], []⟩
    [("facets", "b,z")] ⟨[], [], []⟩ ["b", "z"] (by decide) (by decide) rfl
  exact ⟨h.1.trans (by decide), h.2 rfl rfl⟩

/-- C9: a name configured both as a query filter and as a post filter, with
request values present and both factories succeeding, gets one expression
applied via `filter` and one via `post_filter`, and the canonical echo holds
that name's request values twice — the query-filter pass's entries followed
by the post-filter pass's. -/
theorem C9_dual_name {α β : Type} (n : String) (f1 f2 : FilterFactory α)
    (ags : List (String × AggDef β)) (req : Multi) (s : Search α β)
    (vs : List String) (e1 e2 : α) (hvs : Multi.getAll req n = vs)
    (hne : vs.isEmpty = false) (h1 : f1 vs = .ok e1) (h2 : f2 vs = .ok e2) :
    (default_facets_factory (some ⟨ags, [(n, f1)], [(n, f2)]⟩) req s).1 = none ∧
    (default_facets_factory (some ⟨ags, [(n, f1)], [(n, f2)]⟩) req s).2.1.filters =
      s.filters ++ [e1] ∧
    (default_facets_factory (some ⟨ags, [(n, f1)], [(n, f2)]⟩) req s).2.1.postFilters =
      s.postFilters ++ [e2] ∧
    Multi.getAll
        (default_facets_factory (some ⟨ags, [(n, f1)], [(n, f2)]⟩) req s).2.2 n =
      vs ++ vs := by
  have hok1 : ∀ p ∈ [(n, f1)], (Multi.getAll req p.1).isEmpty = false →
      ∃ e, p.2 (Multi.getAll req p.1) = .ok e := by
    intro p hp
    rcases List.mem_cons.mp hp with h | h
    · subst h; rw [hvs]; exact fun _ => ⟨e1, h1⟩
    · cases h
  have hok2 : ∀ p ∈ [(n, f2)], (Multi.getAll req p.1).isEmpty = false →
      ∃ e, p.2 (Multi.getAll req p.1) = .ok e := by
    intro p hp
    rcases List.mem_cons.mp hp with h | h
    · subst h; rw [hvs]; exact fun _ => ⟨e2, h2⟩
    · cases h
  have hvs' : vs ≠ [] := by simpa using hne
  have hne' : Multi.getAll req n ≠ [] := by rw [hvs]; exact hvs'
  have hsl1 : specFilterList req [(n, f1)] = [e1] := by
    simp [specFilterList, List.filterMap_cons, hne', hvs, hvs', h1,
      Except.toOption]
  have hsl2 : specFilterList req [(n, f2)] = [e2] := by
    simp [specFilterList, List.filterMap_cons, hne', hvs, hvs', h2,
      Except.toOption]
  have hec1 : specEcho req [(n, f1)] = vs.map (fun v => (n, v)) := by
    simp [specEcho, hne', hvs, hvs']
  have hec2 : specEcho req [(n, f2)] = vs.map (fun v => (n, v)) := by
    simp [specEcho, hne', hvs, hvs']
  set cfg : FacetConfig α β := ⟨ags, [(n, f1)], [(n, f2)]⟩ with hcfg
  have hcf : cfg.filters = [(n, f1)] := rfl
  have hcp : cfg.post_filters = [(n, f2)] := rfl
  rw [facets_shape]
  rcases hqr : _query_filter req (aggStep cfg req s) [] cfg.filters
    with ⟨eq, s2, uk1⟩
  have hq := _query_filter_ok req (aggStep cfg req s) [] cfg.filters hok1
  rw [hqr] at hq
  obtain ⟨hq1, hq2, hq3, hq4, hq5⟩ := hq
  simp only at hq1 hq2 hq3 hq4 hq5
  subst hq1
  have hp := _post_filter_ok req s2 uk1 cfg.post_filters hok2
  obtain ⟨hp1, hp2, hp3, hp4, hp5⟩ := hp
  obtain ⟨ha1, ha2⟩ := aggStep_parts cfg req s
  refine ⟨hp1, ?_, ?_, ?_⟩
  · rw [hp3, hq2, ha1]
    simp only [hcf, hsl1]
  · rw [hp2, hq3, ha2]
    simp only [hcp, hsl2]
  · rw [hp5, hq5]
    simp only [hcf, hcp, hec1, hec2, List.nil_append, getAll_append,
      getAll_self_map]

theorem C9_witness :
    (default_facets_factory (β := Nat)
      (some ⟨[], [("y", fun _ => Except.ok 1)], [("y", fun _ => Except.ok 2)]⟩)
      [("y", "5"), ("y", "7")] ⟨[], [], []⟩).1 = none ∧
    (default_facets_factory (β := Nat)
      (some ⟨[], [("y", fun _ => Except.ok 1)], [("y", fun _ => Except.ok 2)]⟩)
      [("y", "5"), ("y", "7")] ⟨[], [], []⟩).2.1.filters = [1] ∧
    (default_facets_factory (β := Nat)
      (some ⟨[], [("y", fun _ => Except.ok 1)], [("y", fun _ => Except.ok 2)]⟩)
      [("y", "5"), ("y", "7")] ⟨[], [], []⟩).2.1.postFilters = [2] ∧
    Multi.getAll (default_facets_factory (β := Nat)
      (some ⟨[], [("y", fun _ => Except.ok 1)], [("y", fun _ => Except.ok 2)]⟩)
      [("y", "5"), ("y", "7")] ⟨[], [], []⟩).2.2 "y" = ["5", "7", "5", "7"] := by
  have h := C9_dual_name "y" (fun _ => Except.ok 1) (fun _ => Except.ok 2)
    ([] : List (String × AggDef Nat)) [("y", "5"), ("y", "7")] ⟨[], [], []⟩
    ["5", "7"] 1 2 (by decide) (by decide) rfl rfl
  exact ⟨h.1, h.2.1, h.2.2.1, h.2.2.2⟩

theorem facets_echo_mem {α β : Type} (cfg : FacetConfig α β) (req : Multi)
    (s : Search α β) (n v : String)
    (hmem : (n, v) ∈ (default_facets_factory (some cfg) req s).2.2) :
    v ∈ Multi.getAll req n ∧
    ∃ ff, ((n, ff) ∈ cfg.filters ∨ (n, ff) ∈ cfg.post_filters) ∧
      ∃ e, ff (Multi.getAll req n) = Except.ok e := by
  rw [facets_shape] at hmem
  rcases hqr : _query_filter req (aggStep cfg req s) [] cfg.filters
    with ⟨eq, s2, uk1⟩
  rw [hqr] at hmem
  have huk1 : uk1 = (createFilterDslAux req cfg.filters [] []).2.2 := by
    have h := _query_filter_uk req (aggStep cfg req s) [] cfg.filters
    rw [hqr] at h
    exact h
  cases eq with
  | some e =>
    simp only at hmem
    rw [huk1] at hmem
    rcases createAux_echo_mem req cfg.filters [] [] n v hmem
      with h | ⟨hval, ff, hm, e', he⟩
    · cases h
    · exact ⟨hval, ff, Or.inl hm, e', he⟩
  | none =>
    simp only at hmem
    rw [_post_filter_uk req s2 uk1 cfg.post_filters] at hmem
    rcases createAux_echo_mem req cfg.post_filters [] uk1 n v hmem
      with h | ⟨hval, ff, hm, e', he⟩
    · rw [huk1] at h
      rcases createAux_echo_mem req cfg.filters [] [] n v h
        with h' | ⟨hval, ff, hm, e', he⟩
      · cases h'
      · exact ⟨hval, ff, Or.inl hm, e', he⟩
    · exact ⟨hval, ff, Or.inr hm, e', he⟩

/-- C5 counterexample: with the same name configured as a query filter (whose
factory succeeds) and as a post filter (whose factory fails), the echo at the
moment the failure propagates does contain an entry for the failing name —
refuting "after a factory fails for some filter name, the echo contains no
entry for that name" as stated. -/
theorem C5_counterexample :
    (default_facets_factory (β := Nat)
      (some ⟨[], [("y", fun vs => Except.ok (Sum.inl (terms_filter "y" vs)))],
        [("y", fun vs => (range_filter "y" none none [] vs).map Sum.inr)]⟩)
      [("y", "5")] ⟨[], [], []⟩).1 = some ⟨"y", "Invalid range format."⟩ ∧
    ("y", "5") ∈ (default_facets_factory (β := Nat)
      (some ⟨[], [("y", fun vs => Except.ok (Sum.inl (terms_filter "y" vs)))],
        [("y", fun vs => (range_filter "y" none none [] vs).map Sum.inr)]⟩)
      [("y", "5")] ⟨[], [], []⟩).2.2 := by
  constructor
  · rfl
  · decide

/-- C5 amended: in every canonical echo produced by the orchestration
(including the state at the moment a validation failure propagates), every
(name, value) entry has its value among the request's values under that name
and some configured factory for that name whose invocation on those values
succeeded; and — provided no filter name is configured in both the
query-filter and the post-filter group (the name identifies a unique
factory) — after a factory fails for some filter name the echo contains no
entry for that name. -/
theorem C5_amended_echo_invariant {α β : Type} (cfg : FacetConfig α β)
    (req : Multi) (s : Search α β) :
    (∀ n v, (n, v) ∈ (default_facets_factory (some cfg) req s).2.2 →
      v ∈ Multi.getAll req n ∧
      ∃ ff, ((n, ff) ∈ cfg.filters ∨ (n, ff) ∈ cfg.post_filters) ∧
        ∃ e, ff (Multi.getAll req n) = Except.ok e) ∧
    (((cfg.filters ++ cfg.post_filters).map Prod.fst).Nodup →
      ∀ n ff, ((n, ff) ∈ cfg.filters ∨ (n, ff) ∈ cfg.post_filters) →
        (∃ e, ff (Multi.getAll req n) = Except.error e) →
        ∀ v, (n, v) ∉ (default_facets_factory (some cfg) req s).2.2) := by
  refine ⟨fun n v h => facets_echo_mem cfg req s n v h, ?_⟩
  intro hnd n ff hm hfail v hv
  obtain ⟨hval, ff', hm', e, he⟩ := facets_echo_mem cfg req s n v hv
  have hf : (n, ff) ∈ cfg.filters ++ cfg.post_filters := by
    rcases hm with h | h
    · exact List.mem_append_left _ h
    · exact List.mem_append_right _ h
  have hf' : (n, ff') ∈ cfg.filters ++ cfg.post_filters := by
    rcases hm' with h | h
    · exact List.mem_append_left _ h
    · exact List.mem_append_right _ h
  have heq : ff = ff' := keys_nodup_eq _ hnd n ff ff' hf hf'
  obtain ⟨e₀, he₀⟩ := hfail
  rw [heq, he] at he₀
  cases he₀

theorem C5_witness :
    ("x" ∈ Multi.getAll [("t", "x")] "t" ∧
      ∃ ff, (("t", ff) ∈
          (FacetConfig.mk (β := Nat) []
            [("t", fun vs => Except.ok (terms_filter "t" vs))] []).filters ∨
        ("t", ff) ∈
          (FacetConfig.mk (β := Nat) []
            [("t", fun vs => Except.ok (terms_filter "t" vs))] []).post_filters) ∧
        ∃ e, ff (Multi.getAll [("t", "x")] "t") = Except.ok e) :=
  (C5_amended_echo_invariant (β := Nat)
    ⟨[], [("t", fun vs => Except.ok (terms_filter "t" vs))], []⟩
    [("t", "x")] ⟨[], [], []⟩).1 "t" "x" (by decide)

/-- C6 counterexample: with two query filters configured where the first
factory succeeds and the second fails, the propagated failure leaves the
query NOT mutated by the earlier filter of the same group (its collected
expression is never applied), refuting "filters earlier in the same
definitions group as the failing filter are applied to the query". -/
theorem C6_counterexample :
    (default_facets_factory (β := Nat)
      (some ⟨[], [("a", fun vs => Except.ok (Sum.inl (terms_filter "a" vs))),
        ("b", fun vs => (range_filter "b" none none [] vs).map Sum.inr)], []⟩)
      [("a", "x"), ("b", "oops")] ⟨[], [], []⟩).1 =
        some ⟨"b", "Invalid range format."⟩ ∧
    (default_facets_factory (β := Nat)
      (some ⟨[], [("a", fun vs => Except.ok (Sum.inl (terms_filter "a" vs))),
        ("b", fun vs => (range_filter "b" none none [] vs).map Sum.inr)], []⟩)
      [("a", "x"), ("b", "oops")] ⟨[], [], []⟩).2.1.filters = [] :=
  ⟨rfl, rfl⟩

/-- C6 amended: when a filter factory fails partway through orchestration,
the failure propagates, no factory after the failing one is invoked (the
result does not depend on the definitions after it, nor, for a query-group,
failure — on the post-filter group at all), and the abandoned query carries
exactly the filters of the groups fully processed before the failing group:
a failure in the query-filter group leaves both filter lists untouched
(expressions collected earlier in the same group are never applied, because
a group's expressions are applied only after the whole group is collected);
a failure in the post-filter group leaves all query-filter expressions
applied and no post-filter expression applied. -/
theorem C6_amended_failure_isolation {α β : Type} (cfg : FacetConfig α β)
    (req : Multi) (s : Search α β)
    (pre post : List (String × FilterFactory α)) (n₀ : String)
    (ff₀ : FilterFactory α) (e₀ : FieldError)
    (hpre : ∀ p ∈ pre, (Multi.getAll req p.1).isEmpty = false →
      ∃ e, p.2 (Multi.getAll req p.1) = .ok e)
    (hvals : (Multi.getAll req n₀).isEmpty = false)
    (hfail : ff₀ (Multi.getAll req n₀) = .error e₀) :
    (cfg.filters = pre ++ (n₀, ff₀) :: post →
      (default_facets_factory (some cfg) req s).1 = some e₀ ∧
      (default_facets_factory (some cfg) req s).2.1.filters = s.filters ∧
      (default_facets_factory (some cfg) req s).2.1.postFilters =
        s.postFilters ∧
      (∀ post' pf',
        default_facets_factory
            (some ⟨cfg.aggs, pre ++ (n₀, ff₀) :: post', pf'⟩) req s =
          default_facets_factory (some cfg) req s)) ∧
    (cfg.post_filters = pre ++ (n₀, ff₀) :: post →
      (∀ p ∈ cfg.filters, (Multi.getAll req p.1).isEmpty = false →
        ∃ e, p.2 (Multi.getAll req p.1) = .ok e) →
      (default_facets_factory (some cfg) req s).1 = some e₀ ∧
      (default_facets_factory (some cfg) req s).2.1.filters =
        s.filters ++ specFilterList req cfg.filters ∧
      (default_facets_factory (some cfg) req s).2.1.postFilters =
        s.postFilters ∧
      (∀ post',
        default_facets_factory
            (some ⟨cfg.aggs, cfg.filters, pre ++ (n₀, ff₀) :: post'⟩) req s =
          default_facets_factory (some cfg) req s)) := by
  obtain ⟨ha1, ha2⟩ := aggStep_parts cfg req s
  constructor
  · intro hqf
    have hq := _query_filter_fail req (aggStep cfg req s) [] pre post n₀ ff₀
      e₀ hpre hvals hfail
    have hshape : default_facets_factory (some cfg) req s =
        (some e₀, aggStep cfg req s, [] ++ specEcho req pre) := by
      rw [facets_shape, hqf, hq]
    refine ⟨by rw [hshape], by rw [hshape]; exact ha1,
      by rw [hshape]; exact ha2, ?_⟩
    intro post' pf'
    have hq' := _query_filter_fail req (aggStep cfg req s) [] pre post' n₀ ff₀
      e₀ hpre hvals hfail
    have hshape' : default_facets_factory
        (some ⟨cfg.aggs, pre ++ (n₀, ff₀) :: post', pf'⟩) req s =
        (some e₀, aggStep cfg req s, [] ++ specEcho req pre) := by
      have hstep : aggStep ⟨cfg.aggs, pre ++ (n₀, ff₀) :: post', pf'⟩ req s =
          aggStep cfg req s := rfl
      rw [facets_shape]
      show (match _query_filter req
          (aggStep ⟨cfg.aggs, pre ++ (n₀, ff₀) :: post', pf'⟩ req s) []
          (pre ++ (n₀, ff₀) :: post') with
        | (some e, s', uk) => (some e, s', uk)
        | (none, s', uk) => _post_filter req s' uk pf') = _
      rw [hstep, hq']
    rw [hshape', hshape]
  · intro hpf hqok
    rcases hqr : _query_filter req (aggStep cfg req s) [] cfg.filters
      with ⟨eq, s2, uk1⟩
    have hq := _query_filter_ok req (aggStep cfg req s) [] cfg.filters hqok
    rw [hqr] at hq
    obtain ⟨hq1, hq2, hq3, hq4, hq5⟩ := hq
    simp only at hq1 hq2 hq3 hq4 hq5
    subst hq1
    have hp := _post_filter_fail req s2 uk1 pre post n₀ ff₀ e₀ hpre hvals hfail
    have hshape : default_facets_factory (some cfg) req s =
        (some e₀, s2, uk1 ++ specEcho req pre) := by
      rw [facets_shape, hqr]
      show _post_filter req s2 uk1 cfg.post_filters = _
      rw [hpf, hp]
    refine ⟨by rw [hshape], ?_, ?_, ?_⟩
    · rw [hshape]
      show s2.filters = _
      rw [hq2, ha1]
    · rw [hshape]
      show s2.postFilters = _
      rw [hq3, ha2]
    · intro post'
      have hp' := _post_filter_fail req s2 uk1 pre post' n₀ ff₀ e₀ hpre hvals
        hfail
      have hshape' : default_facets_factory
          (some ⟨cfg.aggs, cfg.filters, pre ++ (n₀, ff₀) :: post'⟩) req s =
          (some e₀, s2, uk1 ++ specEcho req pre) := by
        have hstep : aggStep ⟨cfg.aggs, cfg.filters, pre ++ (n₀, ff₀) :: post'⟩
            req s = aggStep cfg req s := rfl
        rw [facets_shape]
        show (match _query_filter req
            (aggStep ⟨cfg.aggs, cfg.filters, pre ++ (n₀, ff₀) :: post'⟩ req s)
            [] cfg.filters with
          | (some e, s', uk) => (some e, s', uk)
          | (none, s', uk) =>
            _post_filter req s' uk (pre ++ (n₀, ff₀) :: post')) = _
        rw [hstep, hqr]
        show _post_filter req s2 uk1 (pre ++ (n₀, ff₀) :: post') = _
        rw [hp']
      rw [hshape', hshape]

theorem C6_witness :
    (default_facets_factory (β := Nat)
      (some ⟨[], [("a", fun vs => Except.ok (Sum.inl (terms_filter "a" vs))),
        ("b", fun vs => (range_filter "b" none none [] vs).map Sum.inr)], []⟩)
      [("a", "x"), ("b", "oops")] ⟨[], [], []⟩).1 =
        some ⟨"b", "Invalid range format."⟩ ∧
    (default_facets_factory (β := Nat)
      (some ⟨[], [("a", fun vs => Except.ok (Sum.inl (terms_filter "a" vs))),
        ("b", fun vs => (range_filter "b" none none [] vs).map Sum.inr)], []⟩)
      [("a", "x"), ("b", "oops")] ⟨[], [], []⟩).2.1.filters = [] ∧
    (default_facets_factory (β := Nat)
      (some ⟨[], [("a", fun vs => Except.ok (Sum.inl (terms_filter "a" vs))),
        ("b", fun vs => (range_filter "b" none none [] vs).map Sum.inr)], []⟩)
      [("a", "x"), ("b", "oops")] ⟨[], [], []⟩).2.1.postFilters = [] ∧
    default_facets_factory (β := Nat)
      (some ⟨[], [("a", fun vs => Except.ok (Sum.inl (terms_filter "a" vs))),
        ("b", fun vs => (range_filter "b" none none [] vs).map Sum.inr),
        ("c", fun vs => Except.ok (Sum.inl (terms_filter "c" vs)))],
        [("p", fun vs => Except.ok (Sum.inl (terms_filter "p" vs)))]⟩)
      [("a", "x"), ("b", "oops")] ⟨[], [], []⟩ =
    default_facets_factory (β := Nat)
      (some ⟨[], [("a", fun vs => Except.ok (Sum.inl (terms_filter "a" vs))),
        ("b", fun vs => (range_filter "b" none none [] vs).map Sum.inr)], []⟩)
      [("a", "x"), ("b", "oops")] ⟨[], [], []⟩ := by
  have h := (C6_amended_failure_isolation (β := Nat)
    ⟨[], [("a", fun vs => Except.ok (Sum.inl (terms_filter "a" vs))),
      ("b", fun vs => (range_filter "b" none none [] vs).map Sum.inr)], []⟩
    [("a", "x"), ("b", "oops")] ⟨[], [], []⟩
    [("a", fun vs => Except.ok (Sum.inl (terms_filter "a" vs)))] []
    "b" (fun vs => (range_filter "b" none none [] vs).map Sum.inr)
    ⟨"b", "Invalid range format."⟩
    (by
      intro p hp
      rcases List.mem_cons.mp hp with h | h
      · subst h; exact fun _ => ⟨_, rfl⟩
      · cases h)
    (by decide) rfl).1 rfl
  exact ⟨h.1, h.2.1, h.2.2.1,
    h.2.2.2 [("c", fun vs => Except.ok (Sum.inl (terms_filter "c" vs)))]
      [("p", fun vs => Except.ok (Sum.inl (terms_filter "p" vs)))]⟩

end InvenioFacets
